import Mathlib

/-!
Verification development for the championship/tournament engine specified by
the repository's planning artifacts (`src/tasks/championship/`).  The
repository itself contains only planning scripts; the engine components
(PrizeDistributor, StandingsCalculator, SwissPairingEngine,
EliminationBracketBuilder, MatchLifecycleManager, TournamentController) are
modelled from the specification text, and the schema-generation script
`script_1.py` is embedded directly.
-/

namespace Championship

/-! PrizeDistributor -/

/-- Modelled from the spec: PrizeDistributor's per-position raw share.
Percentages are given in basis points (1% = 100), so 2.5% = 250; the amount is
`pool × percentage` rounded down to the currency's minor unit. -/
def floorShare (pool p : Nat) : Nat := pool * p / 10000

/-- Modelled from the spec: `PrizeDistributionService.distributePrizes` is not
implemented in the repository (the roadmap only declares it); per the spec,
amounts are `pool × percentage` rounded down, with any residual assigned to
the 1st-place entry so the total exactly equals the pool. -/
def distributePrizes (pool : Nat) (table : List Nat) : List Nat :=
  let raw := table.map (floorShare pool)
  match raw with
  | [] => []
  | a :: rest => (a + (pool - (a :: rest).sum)) :: rest

/-- The prize table appearing in the plan (`script.py`, "Prize Distribution"):
1st 40%, 2nd 25%, 3rd 15%, 4th 10%, 5th-8th 2.5% each, in basis points. -/
def planPrizeTable : List Nat := [4000, 2500, 1500, 1000, 250, 250, 250, 250]

/-! StandingsCalculator -/

/-- Outcome of a terminal match.  `win1`/`win2` cover both decisive and
forfeit wins (the winner side is what scoring needs); `doubleForfeit` is the
no-winner terminal outcome, counted as a loss for both sides. -/
inductive MOutcome
  | win1
  | win2
  | draw
  | doubleForfeit
deriving DecidableEq, Repr

/-- A terminal match as seen by the standings calculator: participant ids and
outcome.  `p2 = none` encodes a bye awarded to `p1`. -/
structure TMatch where
  p1 : Nat
  p2 : Option Nat
  outcome : MOutcome
deriving DecidableEq, Repr

/-- Whether match `m` counts as a win for participant `p` (a bye counts as a
win for its holder). -/
def winFor (p : Nat) (m : TMatch) : Bool :=
  match m.p2, m.outcome with
  | none, _ => m.p1 == p
  | some _, .win1 => m.p1 == p
  | some q, .win2 => q == p
  | some _, _ => false

/-- Whether match `m` counts as a draw for participant `p`. -/
def drawFor (p : Nat) (m : TMatch) : Bool :=
  match m.p2, m.outcome with
  | some q, .draw => m.p1 == p || q == p
  | _, _ => false

/-- Whether match `m` counts as a loss for participant `p` (a double forfeit
is a loss for both sides; a bye is never a loss). -/
def lossFor (p : Nat) (m : TMatch) : Bool :=
  match m.p2, m.outcome with
  | some q, .win1 => q == p
  | some _, .win2 => m.p1 == p
  | some q, .doubleForfeit => m.p1 == p || q == p
  | _, _ => false

/-- Number of wins of `p` over the terminal matches `ms`. -/
def wins (p : Nat) (ms : List TMatch) : Nat := (ms.filter (winFor p)).length

/-- Number of draws of `p` over the terminal matches `ms`. -/
def draws (p : Nat) (ms : List TMatch) : Nat := (ms.filter (drawFor p)).length

/-- Number of losses of `p` over the terminal matches `ms`. -/
def losses (p : Nat) (ms : List TMatch) : Nat := (ms.filter (lossFor p)).length

/-- Per-match score contribution: win 1, draw 0.5, otherwise 0. -/
def scoreFor (p : Nat) (m : TMatch) : ℚ :=
  if winFor p m then 1 else if drawFor p m then 1 / 2 else 0

/-- Modelled from the spec: `StandingsCalculatorService`/`updatePoints` is not
implemented in the repository (the roadmap only declares it); per the spec and
the plan, points are accumulated match by match: Win = 1 point, Draw = 0.5
points, Loss = 0 points. -/
def points (p : Nat) (ms : List TMatch) : ℚ := (ms.map (scoreFor p)).sum

/-- Whether participant `p` plays in match `m`. -/
def involves (p : Nat) (m : TMatch) : Bool := m.p1 == p || m.p2 == some p

/-- The opponent `p` faced in match `m` (`none` when `m` is a bye of `p`). -/
def oppOf (p : Nat) (m : TMatch) : Option Nat :=
  if m.p1 == p then m.p2 else some m.p1

/-- The opponents (one `Option Nat` per match, `none` for a bye) participant
`p` has faced over `ms`. -/
def opponents (p : Nat) (ms : List TMatch) : List (Option Nat) :=
  (ms.filter (involves p)).map (oppOf p)

/-- The points an opponent entry contributes to a tie-break sum: a bye
opponent contributes zero. -/
def oppPoints (ms : List TMatch) : Option Nat → ℚ
  | none => 0
  | some q => points q ms

/-- Tie-break contribution of a single match to `p`'s Buchholz score. -/
def buchholzContrib (p : Nat) (ms : List TMatch) (m : TMatch) : ℚ :=
  if involves p m then oppPoints ms (oppOf p m) else 0

/-- Modelled from the spec: `calculateBuchholz` is not implemented in the
repository (the roadmap only declares it); per the spec and the plan, the
tie-break is the Buchholz system: the sum of the scores of all opponents the
participant has faced, a bye opponent contributing zero. -/
def calculateBuchholz (p : Nat) (ms : List TMatch) : ℚ :=
  (ms.map (buchholzContrib p ms)).sum

/-- One standing entry per participant: id, registration index (position in
the registration-ordered participant list), points and Buchholz tie-break. -/
structure StandingEntry where
  userId : Nat
  regIdx : Nat
  points : ℚ
  buchholz : ℚ
deriving DecidableEq, Repr

/-- Sort key for the ranking order: points descending, tie-break descending,
then registration order ascending (the id is a final formal component; it
never decides between entries built from a participant list, whose
registration indices are distinct). -/
def entryKey (e : StandingEntry) : ℚ ×ₗ (ℚ ×ₗ (Nat ×ₗ Nat)) :=
  toLex (-e.points, toLex (-e.buchholz, toLex (e.regIdx, e.userId)))

/-- The ranking order on standing entries. -/
def standingLE (a b : StandingEntry) : Prop := entryKey a ≤ entryKey b

instance : DecidableRel standingLE :=
  fun a b => inferInstanceAs (Decidable (entryKey a ≤ entryKey b))

instance : IsTotal StandingEntry standingLE :=
  ⟨fun a b => le_total (entryKey a) (entryKey b)⟩

instance : IsTrans StandingEntry standingLE :=
  ⟨fun _ _ _ h1 h2 => le_trans h1 h2⟩

instance : IsAntisymm StandingEntry standingLE := by
  refine ⟨fun a b h1 h2 => ?_⟩
  have h : entryKey a = entryKey b := le_antisymm h1 h2
  obtain ⟨au, ar, ap, ab2⟩ := a
  obtain ⟨bu, br, bp, bb⟩ := b
  simp only [entryKey, toLex_inj, Prod.mk.injEq, neg_inj] at h
  obtain ⟨h3, h4, h5, h6⟩ := h
  simp [h3, h4, h5, h6]

/-- The unsorted standing entries for participants starting at registration
index `i`, computed wholesale from the terminal matches. -/
def baseEntriesFrom (i : Nat) (ms : List TMatch) : List Nat → List StandingEntry
  | [] => []
  | p :: ps =>
    ⟨p, i, points p ms, calculateBuchholz p ms⟩ :: baseEntriesFrom (i + 1) ms ps

/-- The unsorted standing entries: one per participant, computed wholesale
from the terminal matches (`participants` is in registration order). -/
def baseEntries (participants : List Nat) (ms : List TMatch) : List StandingEntry :=
  baseEntriesFrom 0 ms participants

/-- Modelled from the spec: `recalculateStandings` is not implemented in the
repository (the roadmap only declares it); per the spec, standings are fully
recomputed from the terminal matches and sorted by points descending,
tie-break descending, then registration order. -/
def recalculateStandings (participants : List Nat) (ms : List TMatch) :
    List StandingEntry :=
  List.insertionSort standingLE (baseEntries participants ms)

/-- Ranks `r`, `r+1`, ... assigned to a list of entries in order. -/
def assignRanksFrom (r : Nat) : List StandingEntry → List (Nat × StandingEntry)
  | [] => []
  | e :: es => (r, e) :: assignRanksFrom (r + 1) es

/-- Modelled from the spec: `assignRanks` — ranks 1..n assigned in sorted
order. -/
def assignRanks (es : List StandingEntry) : List (Nat × StandingEntry) :=
  assignRanksFrom 1 es

/-- The full standings table: recompute, sort, assign ranks. -/
def standingsTable (participants : List Nat) (ms : List TMatch) :
    List (Nat × StandingEntry) :=
  assignRanks (recalculateStandings participants ms)

/-! SwissPairingEngine -/

/-- Whether the unordered pair `{a, b}` already occurs in the pairing
history. -/
def havePlayed (hist : List (Nat × Nat)) (a b : Nat) : Bool :=
  hist.contains (a, b) || hist.contains (b, a)

/-- How many times the unordered pair `{a, b}` occurs in a pairing history. -/
def meetCount (hist : List (Nat × Nat)) (a b : Nat) : Nat :=
  hist.countP fun pr => pr == (a, b) || pr == (b, a)

/-- The participants mentioned by a list of pairings, in order. -/
def pairMembers : List (Nat × Nat) → List Nat
  | [] => []
  | pr :: ps => pr.1 :: pr.2 :: pairMembers ps

/-- Modelled from the spec: within the ranked pool, the engine pairs the top
remaining participant with the nearest remaining participant by rank they
have not yet played (adjacent first, then searching outward downward, which
floats across score-group boundaries).  `findOpponent hist a pool` scans the
pool in rank order for the first participant `a` has not met; it returns the
opponent and the rest of the pool. -/
def findOpponent (hist : List (Nat × Nat)) (a : Nat) :
    List Nat → Option (Nat × List Nat)
  | [] => none
  | b :: rest =>
    if havePlayed hist a b then
      match findOpponent hist a rest with
      | none => none
      | some (c, rem) => some (c, b :: rem)
    else
      some (b, rest)

/-- Modelled from the spec: greedy pairing of the whole ranked pool, top
group first; fails (`none`, the `PairingInfeasible` signal) when some
participant cannot be given a fresh opponent.  `fuel` bounds the recursion;
it is instantiated with the pool length, which always suffices. -/
def pairAll (hist : List (Nat × Nat)) : Nat → List Nat → Option (List (Nat × Nat))
  | _, [] => some []
  | 0, _ :: _ => none
  | fuel + 1, a :: rest =>
    match findOpponent hist a rest with
    | none => none
    | some (b, rem) =>
      match pairAll hist fuel rem with
      | none => none
      | some ps => some ((a, b) :: ps)

/-- Pair an even-sized ranked pool. -/
def pairPool (hist : List (Nat × Nat)) (ranked : List Nat) :
    Option (List (Nat × Nat)) :=
  pairAll hist ranked.length ranked

/-- Modelled from the spec: bye selection — eligibility is restricted to
participants who have not yet received a bye, breaking ties by lowest current
rank (the last eligible entry of the ranked list); if every participant has
already had a bye the round is infeasible, keeping byes single-use. -/
def pickBye (byeHist : List Nat) (ranked : List Nat) : Option (Nat × List Nat) :=
  match ranked.reverse.find? (fun p => ! byeHist.contains p) with
  | none => none
  | some b => some (b, ranked.erase b)

/-- Modelled from the spec: `generateNextRound` is not implemented in the
repository (the roadmap only declares it); per the spec, the ranked field is
paired avoiding all previous pairings, with a single bye when the count is
odd, and the round fails (`PairingInfeasible`, here `none`) when no valid
assignment exists. -/
def generateNextRound (hist : List (Nat × Nat)) (byeHist : List Nat)
    (ranked : List Nat) : Option (List (Nat × Nat) × Option Nat) :=
  if ranked.length % 2 = 0 then
    match pairPool hist ranked with
    | none => none
    | some ps => some (ps, none)
  else
    match pickBye byeHist ranked with
    | none => none
    | some (b, rest) =>
      match pairPool hist rest with
      | none => none
      | some ps => some (ps, some b)

/-- The whole Swiss phase: one ranked ordering per round (round 1 runs with
an empty history, so it has no history constraint); each round's pairings and
bye are appended to the running history. -/
def swissPhase (rankings : List (List Nat)) (hist : List (Nat × Nat))
    (byeHist : List Nat) : Option (List (Nat × Nat) × List Nat) :=
  match rankings with
  | [] => some (hist, byeHist)
  | r :: rs =>
    match generateNextRound hist byeHist r with
    | none => none
    | some (ps, ob) => swissPhase rs (hist ++ ps) (byeHist ++ ob.toList)

/-- Adjacent pairing of a pool: entry 1 with entry 2, entry 3 with entry 4,
and so on. -/
def adjacentPairs : List Nat → List (Nat × Nat)
  | a :: b :: rest => (a, b) :: adjacentPairs rest
  | _ => []

/-- The roadmap's `generateFirstRound(): Random pairing`
(`script_2.py`, Phase 4), shallowly embedded: the randomness is externalized
as the shuffled order in which the field arrives, and adjacent entries of the
shuffle are paired. -/
def generateFirstRound (shuffled : List Nat) : List (Nat × Nat) :=
  adjacentPairs shuffled

/-- Stated from the spec's words, for comparison with the code's first-round
pairing: split the ranked field into a top half and a bottom half and pair
rank 1 vs rank n/2+1, rank 2 vs rank n/2+2, and so on. -/
def seededFirstRound (ranked : List Nat) : List (Nat × Nat) :=
  (ranked.take (ranked.length / 2)).zip (ranked.drop (ranked.length / 2))

/-- Interleave two lists: first of the left, first of the right, second of
the left, ... -/
def interleave : List Nat → List Nat → List Nat
  | [], ys => ys
  | x :: xs, [] => x :: xs
  | x :: xs, y :: ys => x :: y :: interleave xs ys

/-! EliminationBracketBuilder -/

/-- Modelled from the spec: the bracket size is the smallest power of two
that is at least the qualifier count. -/
def bracketSize (q : Nat) : Nat := 2 ^ Nat.clog 2 q

/-- One doubling step of the standard bracket layout: each seed `s` of the
half-size bracket is followed by its new first-round opponent `n + 1 - s`,
where `n` is the new bracket size. -/
def expandSlots (n : Nat) : List Nat → List Nat
  | [] => []
  | s :: rest => s :: (n + 1 - s) :: expandSlots n rest

/-- Modelled from the spec: `generateBracket` is not implemented in the
repository (the roadmap only declares it); per the spec, the bracket-standard
seed layout for a bracket of size `2 ^ k`: adjacent slots form the
first-round matches, and seed `i` meets seed `B + 1 - i`. -/
def bracketSlots : Nat → List Nat
  | 0 => [1]
  | k + 1 => expandSlots (2 ^ (k + 1)) (bracketSlots k)

/-- Modelled from the spec: `advanceWinner` is not implemented in the
repository (the roadmap only declares it); per the spec, each later round
pairs winners of adjacent bracket slots, preserving bracket position and
never re-seeding: the next round's slot list is the winner of each adjacent
pair.  `w` selects the winner of a pair (the game result is external). -/
def advanceWinner (w : Nat × Nat → Nat) (l : List Nat) : List Nat :=
  (adjacentPairs l).map w

/-- `t` rounds of bracket play from slot list `l` under winner function
`w`. -/
def playRounds (w : Nat × Nat → Nat) : Nat → List Nat → List Nat
  | 0, l => l
  | t + 1, l => playRounds w t (advanceWinner w l)

/-- A slot list splits into two same-sized power-of-two halves with seed 2
absent from the first half and seed 1 absent from the second: the invariant
that keeps the top two seeds apart until the final. -/
def halfSplit (j : Nat) (l : List Nat) : Prop :=
  ∃ u v : List Nat,
    l = u ++ v ∧ u.length = 2 ^ j ∧ v.length = 2 ^ j ∧ 2 ∉ u ∧ 1 ∉ v

/-! MatchLifecycleManager -/

/-- The per-match lifecycle states (spec section 4.3 and the auto-forfeit
flowchart of `chart_script_1.py`). -/
inductive MatchState
  | created
  | awaitingBothOnline
  | roomActive
  | completed
  | forfeited
  | doubleForfeited
  | cancelled
deriving DecidableEq, Repr

/-- Terminal states of the per-match state machine. -/
def isTerminal : MatchState → Bool
  | .completed => true
  | .forfeited => true
  | .doubleForfeited => true
  | .cancelled => true
  | _ => false

/-- Result kinds recorded on a terminal match (schema `result_type`). -/
inductive ResultKind
  | decisive
  | draw
  | forfeit
  | doubleForfeit
deriving DecidableEq, Repr

/-- A match as owned by the lifecycle manager: the two participants, the
fixed deadline, the current state, which participants have been seen online
at some point, and the recorded winner/result. -/
structure LMatch where
  p1 : Nat
  p2 : Nat
  deadline : Nat
  state : MatchState
  p1Seen : Bool
  p2Seen : Bool
  winner : Option Nat
  result : Option ResultKind
deriving DecidableEq, Repr

/-- External and administrative events a match can receive: a presence
signal, a terminal game result (`none` = draw), the periodic deadline sweep
carrying the current time, and the privileged manual override. -/
inductive MEvent
  | presence (p : Nat)
  | gameResult (w : Option Nat)
  | deadlineSweep (now : Nat)
  | adminOverride (w : Option Nat) (kind : ResultKind)
deriving DecidableEq, Repr

/-- Warnings emitted by the lifecycle manager; never failures. -/
inductive MWarning
  | staleEventIgnored
  | duplicateTransitionAttempt
deriving DecidableEq, Repr

/-- Whether an event comes from an external collaborator (presence, game
room, clock) rather than from a privileged administrator. -/
def isExternal : MEvent → Bool
  | .adminOverride _ _ => false
  | _ => true

/-- Presence handling: record the seen flag; once both participants have
been seen the match becomes `roomActive`, otherwise it waits in
`awaitingBothOnline`. -/
def applyPresence (m : LMatch) (p : Nat) : LMatch :=
  let s1 := m.p1Seen || (p == m.p1)
  let s2 := m.p2Seen || (p == m.p2)
  { m with
    p1Seen := s1
    p2Seen := s2
    state := if s1 && s2 then MatchState.roomActive
             else MatchState.awaitingBothOnline }

/-- Modelled from the spec: the per-match state machine of
`MatchSchedulerService`/`handleMatchExpiry` is not implemented in the
repository (the roadmap only declares it and `chart_script_1.py` only draws
it); per the spec: a late external event on a terminal match is dropped with
a stale-event warning; presence moves `created`/`awaitingBothOnline` towards
`roomActive`; a game result completes only a `roomActive` match; upon
deadline expiry while not completed, a sole present participant wins by
forfeit, both absent gives a double forfeit with no winner; manual override
is the only post-terminal mutation and only corrects the recorded result. -/
def step (m : LMatch) (e : MEvent) : LMatch × Option MWarning :=
  if isTerminal m.state && isExternal e then
    (m, some .staleEventIgnored)
  else
    match e with
    | .presence p =>
      match m.state with
      | .created => (applyPresence m p, none)
      | .awaitingBothOnline => (applyPresence m p, none)
      | _ =>
        ({ m with
            p1Seen := m.p1Seen || (p == m.p1)
            p2Seen := m.p2Seen || (p == m.p2) }, none)
    | .gameResult w =>
      match m.state with
      | .roomActive =>
        ({ m with
            state := .completed
            winner := w
            result := some (if w.isSome then .decisive else .draw) }, none)
      | _ => (m, some .duplicateTransitionAttempt)
    | .deadlineSweep now =>
      if m.deadline ≤ now then
        if m.p1Seen && !m.p2Seen then
          ({ m with
              state := .forfeited
              winner := some m.p1
              result := some .forfeit }, none)
        else if m.p2Seen && !m.p1Seen then
          ({ m with
              state := .forfeited
              winner := some m.p2
              result := some .forfeit }, none)
        else
          ({ m with
              state := .doubleForfeited
              winner := none
              result := some .doubleForfeit }, none)
      else (m, none)
    | .adminOverride w k =>
      if isTerminal m.state then ({ m with winner := w, result := some k }, none)
      else ({ m with state := .completed, winner := w, result := some k }, none)

/-- The standings view of a lifecycle match: who won, or draw, or double
forfeit. -/
def toTMatch (m : LMatch) : TMatch :=
  { p1 := m.p1, p2 := some m.p2,
    outcome :=
      match m.winner, m.result with
      | some w, _ => if w = m.p1 then .win1 else .win2
      | none, some .draw => .draw
      | _, _ => .doubleForfeit }

/-! TournamentController -/

/-- Controller state: the rounds paired so far, newest first; each round is
its list of matches. -/
structure TState where
  rounds : List (List LMatch)
deriving DecidableEq, Repr

/-- A round is complete when every match in it is terminal. -/
def roundComplete (rnd : List LMatch) : Prop :=
  ∀ mm ∈ rnd, isTerminal mm.state = true

/-- Deliver event `e` to match `j` of round `rnd` (out-of-range indices are
no-ops). -/
def updateRound (j : Nat) (e : MEvent) (rnd : List LMatch) : List LMatch :=
  match rnd.get? j with
  | none => rnd
  | some m => rnd.set j (step m e).1

/-- Deliver event `e` to match `j` of round `r` (newest round is 0). -/
def applyEvent (r j : Nat) (e : MEvent) : List (List LMatch) → List (List LMatch)
  | [] => []
  | rnd :: rest =>
    match r with
    | 0 => updateRound j e rnd :: rest
    | r' + 1 => rnd :: applyEvent r' j e rest

/-- Modelled from the spec: TournamentController is not implemented in the
repository; per the spec, the tournament evolves by delivering match events
through the lifecycle manager, and by pairing a new round, which is permitted
only once every match of the newest existing round is terminal. -/
inductive CStep : TState → TState → Prop
  | matchEvent (s : TState) (r j : Nat) (e : MEvent) :
      CStep s ⟨applyEvent r j e s.rounds⟩
  | pairRound (s : TState) (newR : List LMatch) :
      roundComplete (s.rounds.headD []) →
      CStep s ⟨newR :: s.rounds⟩

/-! Schema-generation script (`script_1.py`) -/

/-- One row of the database-schema dataframe built by `script_1.py`: the
Table, Field, Type and Description columns. -/
structure SchemaField where
  table : String
  field : String
  type : String
  description : String
deriving DecidableEq, Repr

/-- The 46 field rows appended to `tables_data` by `script_1.py`, in order. -/
def tables_data : List SchemaField := [
  ⟨"championships", "id", "BIGINT UNSIGNED", "Primary key"⟩,
  ⟨"championships", "title", "VARCHAR(255)", "Championship name"⟩,
  ⟨"championships", "description", "TEXT", "Championship details"⟩,
  ⟨"championships", "entry_fee", "DECIMAL(10,2)", "Entry fee amount in INR"⟩,
  ⟨"championships", "max_participants", "INT UNSIGNED", "NULL = unlimited, otherwise capped"⟩,
  ⟨"championships", "registration_deadline", "DATETIME", "Last date to register"⟩,
  ⟨"championships", "start_date", "DATETIME", "Championship start date"⟩,
  ⟨"championships", "match_time_window_hours", "INT", "Hours to complete match (24, 48, 72)"⟩,
  ⟨"championships", "format", "ENUM", "\x27swiss_elimination\x27, \x27swiss_only\x27, \x27elimination_only\x27"⟩,
  ⟨"championships", "swiss_rounds", "INT", "Number of Swiss rounds"⟩,
  ⟨"championships", "top_qualifiers", "INT", "Number advancing to elimination (e.g., 8)"⟩,
  ⟨"championships", "status", "ENUM", "\x27upcoming\x27, \x27registration_open\x27, \x27in_progress\x27, \x27completed\x27"⟩,
  ⟨"championship_participants", "id", "BIGINT UNSIGNED", "Primary key"⟩,
  ⟨"championship_participants", "championship_id", "BIGINT UNSIGNED", "Foreign key to championships"⟩,
  ⟨"championship_participants", "user_id", "BIGINT UNSIGNED", "Foreign key to users"⟩,
  ⟨"championship_participants", "razorpay_order_id", "VARCHAR(255)", "Razorpay order ID"⟩,
  ⟨"championship_participants", "razorpay_payment_id", "VARCHAR(255)", "Razorpay payment ID"⟩,
  ⟨"championship_participants", "payment_status", "ENUM", "\x27pending\x27, \x27completed\x27, \x27failed\x27, \x27refunded\x27"⟩,
  ⟨"championship_participants", "amount_paid", "DECIMAL(10,2)", "Amount paid"⟩,
  ⟨"championship_participants", "registered_at", "DATETIME", "Registration timestamp"⟩,
  ⟨"championship_participants", "seed_number", "INT", "Seeding for elimination bracket"⟩,
  ⟨"championship_matches", "id", "BIGINT UNSIGNED", "Primary key"⟩,
  ⟨"championship_matches", "championship_id", "BIGINT UNSIGNED", "Foreign key to championships"⟩,
  ⟨"championship_matches", "round_number", "INT", "Round number (1, 2, 3...)"⟩,
  ⟨"championship_matches", "round_type", "ENUM", "\x27swiss\x27, \x27quarter\x27, \x27semi\x27, \x27final\x27, \x27third_place\x27"⟩,
  ⟨"championship_matches", "player1_id", "BIGINT UNSIGNED", "Foreign key to users"⟩,
  ⟨"championship_matches", "player2_id", "BIGINT UNSIGNED", "Foreign key to users"⟩,
  ⟨"championship_matches", "game_id", "BIGINT UNSIGNED", "Foreign key to games (NULL if not started)"⟩,
  ⟨"championship_matches", "scheduled_at", "DATETIME", "When match was created"⟩,
  ⟨"championship_matches", "deadline", "DATETIME", "Match completion deadline"⟩,
  ⟨"championship_matches", "winner_id", "BIGINT UNSIGNED", "Foreign key to users (NULL if not finished)"⟩,
  ⟨"championship_matches", "result_type", "ENUM", "\x27completed\x27, \x27forfeit\x27, \x27double_forfeit\x27, \x27draw\x27"⟩,
  ⟨"championship_matches", "status", "ENUM", "\x27pending\x27, \x27in_progress\x27, \x27completed\x27, \x27cancelled\x27"⟩,
  ⟨"championship_standings", "id", "BIGINT UNSIGNED", "Primary key"⟩,
  ⟨"championship_standings", "championship_id", "BIGINT UNSIGNED", "Foreign key to championships"⟩,
  ⟨"championship_standings", "user_id", "BIGINT UNSIGNED", "Foreign key to users"⟩,
  ⟨"championship_standings", "matches_played", "INT", "Total matches played"⟩,
  ⟨"championship_standings", "wins", "INT", "Number of wins"⟩,
  ⟨"championship_standings", "draws", "INT", "Number of draws"⟩,
  ⟨"championship_standings", "losses", "INT", "Number of losses"⟩,
  ⟨"championship_standings", "points", "DECIMAL(4,1)", "Total points (W=1, D=0.5, L=0)"⟩,
  ⟨"championship_standings", "buchholz_score", "DECIMAL(6,1)", "Tiebreaker: sum of opponents\x27 scores"⟩,
  ⟨"championship_standings", "rank", "INT", "Current rank in standings"⟩,
  ⟨"championship_standings", "final_position", "INT", "Final position (1st, 2nd, 3rd, etc.)"⟩,
  ⟨"championship_standings", "prize_amount", "DECIMAL(10,2)", "Prize money won"⟩,
  ⟨"championship_standings", "credits_earned", "INT", "Credits awarded"⟩]

/-- The output of `df.to_csv(...)`: target path, whether an index column is
written, and the rows. -/
structure CsvOutput where
  path : String
  index : Bool
  rows : List SchemaField
deriving DecidableEq, Repr

/-- The whole script as a function of its (empty) input: build the dataframe
from `tables_data` and write it to `championship_database_schema.csv` with
`index=False`. -/
def runScript (_ : Unit) : CsvOutput :=
  ⟨"championship_database_schema.csv", false, tables_data⟩

end Championship

namespace Championship

theorem floorShare_sum_le (pool : Nat) :
    ∀ table : List Nat, (table.map (floorShare pool)).sum ≤ pool * table.sum / 10000
  | [] => Nat.zero_le _
  | p :: ps => by
    have ih := floorShare_sum_le pool ps
    have h1 : floorShare pool p + (ps.map (floorShare pool)).sum ≤
        pool * p / 10000 + pool * ps.sum / 10000 := Nat.add_le_add le_rfl ih
    have h2 : pool * p / 10000 + pool * ps.sum / 10000 ≤
        (pool * p + pool * ps.sum) / 10000 := Nat.add_div_le_add_div _ _ _
    have h3 : pool * p + pool * ps.sum = pool * (p :: ps).sum := by
      simp [List.sum_cons, Nat.mul_add]
    calc ((p :: ps).map (floorShare pool)).sum
        = floorShare pool p + (ps.map (floorShare pool)).sum := by simp
      _ ≤ pool * p / 10000 + pool * ps.sum / 10000 := h1
      _ ≤ (pool * p + pool * ps.sum) / 10000 := h2
      _ = pool * (p :: ps).sum / 10000 := by rw [h3]

theorem distributePrizes_sum (pool : Nat) (table : List Nat)
    (hsum : table.sum = 10000) (hne : table ≠ []) :
    (distributePrizes pool table).sum = pool := by
  obtain ⟨p, ps, rfl⟩ := List.exists_cons_of_ne_nil hne
  have hle : ((p :: ps).map (floorShare pool)).sum ≤ pool := by
    have := floorShare_sum_le pool (p :: ps)
    rwa [hsum, Nat.mul_div_cancel pool (by norm_num : (0:Nat) < 10000)] at this
  simp only [distributePrizes, List.map_cons, List.sum_cons] at *
  omega

/-- C1: for every completed tournament with entry-fee pool `P` and a valid
prize percentage table (nonempty, summing to 100%), the per-position prize
amounts computed by `distributePrizes` sum to exactly `P` (the rounding
residual being assigned to the 1st-place entry); in particular, for
`P = 10000` and the plan's table {1st:40%, 2nd:25%, 3rd:15%, 4th:10%,
5th-8th:2.5% each} the outputs are {4000, 2500, 1500, 1000, 250, 250, 250,
250}. -/
theorem C1_prize_sum :
    (∀ (pool : Nat) (table : List Nat), table.sum = 10000 → table ≠ [] →
      (distributePrizes pool table).sum = pool) ∧
    distributePrizes 10000 planPrizeTable = [4000, 2500, 1500, 1000, 250, 250, 250, 250] := by
  refine ⟨fun pool table hsum hne => distributePrizes_sum pool table hsum hne, ?_⟩
  decide

/-- Witness for C1 at the concrete pool 10000 and the plan's table. -/
theorem C1_prize_sum_witness :
    planPrizeTable.sum = 10000 ∧ planPrizeTable ≠ [] ∧
    (distributePrizes 10000 planPrizeTable).sum = 10000 :=
  ⟨by decide, by decide, C1_prize_sum.1 10000 planPrizeTable (by decide) (by decide)⟩

theorem win_not_draw (p : Nat) (m : TMatch) (h : winFor p m = true) :
    drawFor p m = false := by
  obtain ⟨p1, p2, oc⟩ := m
  cases p2 <;> cases oc <;> simp_all [winFor, drawFor]

theorem wins_cons (p : Nat) (m : TMatch) (ms : List TMatch) :
    wins p (m :: ms) = (if winFor p m then 1 else 0) + wins p ms := by
  by_cases h : winFor p m <;> simp [wins, List.filter_cons, h] <;> omega

theorem draws_cons (p : Nat) (m : TMatch) (ms : List TMatch) :
    draws p (m :: ms) = (if drawFor p m then 1 else 0) + draws p ms := by
  by_cases h : drawFor p m <;> simp [draws, List.filter_cons, h] <;> omega

theorem points_eq (p : Nat) :
    ∀ ms : List TMatch, points p ms = (wins p ms : ℚ) + (draws p ms : ℚ) / 2
  | [] => by simp [points, wins, draws]
  | m :: ms => by
    have ih := points_eq p ms
    have hpts : points p (m :: ms) = scoreFor p m + points p ms := by simp [points]
    rw [hpts, wins_cons, draws_cons]
    by_cases hw : winFor p m
    · have hd := win_not_draw p m hw
      rw [scoreFor, if_pos hw, ih]
      simp only [hw, hd, if_true, if_false, Bool.false_eq_true]
      push_cast
      ring
    · by_cases hd : drawFor p m
      · rw [scoreFor, if_neg hw, if_pos hd, ih]
        simp only [hw, hd, if_true, if_false, Bool.false_eq_true]
        push_cast
        ring
      · rw [scoreFor, if_neg hw, if_neg hd, ih]
        simp only [hw, hd, if_false, Bool.false_eq_true]
        push_cast
        ring

theorem sum_map_of_filter (f : TMatch → ℚ) (q : TMatch → Bool)
    (h : ∀ m, q m = false → f m = 0) :
    ∀ ms : List TMatch, ((ms.filter q).map f).sum = (ms.map f).sum
  | [] => rfl
  | m :: ms => by
    have ih := sum_map_of_filter f q h ms
    by_cases hq : q m
    · simp [List.filter_cons, hq, ih]
    · simp [List.filter_cons, hq, ih, h m (by simpa using hq)]

theorem calculateBuchholz_eq (p : Nat) (ms : List TMatch) :
    calculateBuchholz p ms = ((opponents p ms).map (oppPoints ms)).sum := by
  unfold calculateBuchholz opponents
  rw [List.map_map]
  rw [← sum_map_of_filter (buchholzContrib p ms) (involves p)
    (fun m hm => by simp [buchholzContrib, hm]) ms]
  refine congrArg List.sum (List.map_congr_left ?_)
  intro m hm
  have hinv : involves p m = true := List.of_mem_filter hm
  simp [buchholzContrib, hinv, Function.comp]

theorem bye_scores (p : Nat) (ms : List TMatch) (m : TMatch)
    (h2 : m.p2 = none) (h1 : m.p1 = p) :
    winFor p m = true ∧ buchholzContrib p ms m = 0 := by
  obtain ⟨p1, p2, oc⟩ := m
  simp only at h1 h2
  subst h1 h2
  simp [winFor, buchholzContrib, involves, oppOf, oppPoints]

/-- C2: for every participant and every set of terminal matches, the
standings calculator assigns points equal to wins + 0.5 × draws, a Buchholz
tie-break equal to the sum of the points of every opponent the participant
has faced, and counts a bye as a win whose opponent contributes zero to the
tie-break score. -/
theorem C2_standings_calculator :
    ∀ (p : Nat) (ms : List TMatch),
      points p ms = (wins p ms : ℚ) + (draws p ms : ℚ) / 2 ∧
      calculateBuchholz p ms = ((opponents p ms).map (oppPoints ms)).sum ∧
      ∀ m ∈ ms, m.p2 = none → m.p1 = p →
        winFor p m = true ∧ buchholzContrib p ms m = 0 :=
  fun p ms =>
    ⟨points_eq p ms, calculateBuchholz_eq p ms,
     fun m _ h2 h1 => bye_scores p ms m h2 h1⟩

/-- Witness for C2 on a concrete two-match history containing a bye. -/
theorem C2_standings_calculator_witness :
    (⟨1, none, .win1⟩ : TMatch) ∈
        [(⟨1, none, .win1⟩ : TMatch), ⟨2, some 1, .draw⟩] ∧
    winFor 1 (⟨1, none, .win1⟩ : TMatch) = true ∧
    buchholzContrib 1 [(⟨1, none, .win1⟩ : TMatch), ⟨2, some 1, .draw⟩]
      (⟨1, none, .win1⟩ : TMatch) = 0 :=
  ⟨by decide,
   (C2_standings_calculator 1 [⟨1, none, .win1⟩, ⟨2, some 1, .draw⟩]).2.2
     ⟨1, none, .win1⟩ (by decide) rfl rfl⟩

theorem standingLE_iff (a b : StandingEntry) :
    standingLE a b ↔
      b.points < a.points ∨ (a.points = b.points ∧
        (b.buchholz < a.buchholz ∨ (a.buchholz = b.buchholz ∧
          (a.regIdx < b.regIdx ∨ (a.regIdx = b.regIdx ∧ a.userId ≤ b.userId))))) := by
  simp [standingLE, entryKey, Prod.Lex.le_iff, neg_lt_neg_iff, neg_inj]

/-- C9: the standings calculator is idempotent and deterministic: recomputing
on the same terminal data yields identical output; the output is sorted by
the ranking order (characterized explicitly as points descending, tie-break
descending, then registration order), is a permutation of the per-participant
entries, and is the unique such sorted permutation, so equal inputs never
yield differently ordered outputs. -/
theorem C9_standings_deterministic :
    ∀ (participants : List Nat) (ms : List TMatch),
      standingsTable participants ms = standingsTable participants ms ∧
      List.Sorted standingLE (recalculateStandings participants ms) ∧
      (recalculateStandings participants ms).Perm (baseEntries participants ms) ∧
      (∀ l : List StandingEntry, l.Perm (baseEntries participants ms) →
          List.Sorted standingLE l → l = recalculateStandings participants ms) ∧
      (∀ a b : StandingEntry, standingLE a b ↔
        b.points < a.points ∨ (a.points = b.points ∧
          (b.buchholz < a.buchholz ∨ (a.buchholz = b.buchholz ∧
            (a.regIdx < b.regIdx ∨ (a.regIdx = b.regIdx ∧ a.userId ≤ b.userId)))))) := by
  intro ps ms
  refine ⟨rfl, List.sorted_insertionSort standingLE _,
    List.perm_insertionSort standingLE _, ?_, standingLE_iff⟩
  intro l hperm hsort
  exact List.eq_of_perm_of_sorted
    (hperm.trans (List.perm_insertionSort standingLE _).symm) hsort
    (List.sorted_insertionSort standingLE _)

theorem havePlayed_comm (hist : List (Nat × Nat)) (a b : Nat) :
    havePlayed hist a b = havePlayed hist b a := by
  simp [havePlayed, Bool.or_comm]

theorem findOpponent_spec (hist : List (Nat × Nat)) (a : Nat) :
    ∀ (l : List Nat) (b : Nat) (rem : List Nat),
      findOpponent hist a l = some (b, rem) →
      havePlayed hist a b = false ∧ (b :: rem).Perm l
  | [], b, rem => by simp [findOpponent]
  | c :: rest, b, rem => by
    intro h
    rw [findOpponent] at h
    split at h
    · split at h
      · exact absurd h (by simp)
      · rename_i hp c' rem' hf
        simp only [Option.some.injEq, Prod.mk.injEq] at h
        obtain ⟨rfl, rfl⟩ := h
        have ih := findOpponent_spec hist a rest c' rem' hf
        exact ⟨ih.1, (List.Perm.swap c c' rem').trans (ih.2.cons c)⟩
    · rename_i hp
      simp only [Option.some.injEq, Prod.mk.injEq] at h
      obtain ⟨rfl, rfl⟩ := h
      exact ⟨by simpa using hp, List.Perm.refl _⟩

theorem pairAll_spec (hist : List (Nat × Nat)) :
    ∀ (fuel : Nat) (l : List Nat) (ps : List (Nat × Nat)),
      pairAll hist fuel l = some ps →
      (∀ pr ∈ ps, havePlayed hist pr.1 pr.2 = false) ∧ (pairMembers ps).Perm l
  | fuel, [], ps => by
    intro h
    cases fuel <;> simp [pairAll] at h <;> subst h <;> simp [pairMembers]
  | 0, a :: rest, ps => by simp [pairAll]
  | fuel + 1, a :: rest, ps => by
    intro h
    rw [pairAll] at h
    split at h
    · exact absurd h (by simp)
    · rename_i b rem hf
      split at h
      · exact absurd h (by simp)
      · rename_i ps' hp
        simp only [Option.some.injEq] at h
        subst h
        have hfo := findOpponent_spec hist a rest b rem hf
        have ih := pairAll_spec hist fuel rem ps' hp
        constructor
        · intro pr hpr
          rcases List.mem_cons.mp hpr with hpr | hpr
          · subst hpr; exact hfo.1
          · exact ih.1 pr hpr
        · show (a :: b :: pairMembers ps').Perm (a :: rest)
          exact ((ih.2.cons b).trans hfo.2).cons a

theorem meetCount_append (h1 h2 : List (Nat × Nat)) (a b : Nat) :
    meetCount (h1 ++ h2) a b = meetCount h1 a b + meetCount h2 a b :=
  List.countP_append _ _ _

theorem meetCount_of_not_played (hist : List (Nat × Nat)) (a b : Nat)
    (h : havePlayed hist a b = false) : meetCount hist a b = 0 := by
  rw [meetCount, List.countP_eq_zero]
  intro pr hpr
  simp only [havePlayed] at h
  simp at h
  obtain ⟨h1, h2⟩ := h
  simp only [Bool.or_eq_true, beq_iff_eq]
  rintro (rfl | rfl)
  · exact h1 hpr
  · exact h2 hpr

theorem meetCount_zero_of_not_mem (a b : Nat) :
    ∀ ps : List (Nat × Nat), a ∉ pairMembers ps → meetCount ps a b = 0
  | [], _ => rfl
  | (x, y) :: ps, h => by
    simp only [pairMembers, List.mem_cons, not_or] at h
    obtain ⟨h1, h2, h3⟩ := h
    have ih := meetCount_zero_of_not_mem a b ps h3
    have hpr : ((x, y) == (a, b) || (x, y) == (b, a)) = false := by
      simp only [Bool.or_eq_false_iff, beq_eq_false_iff_ne, ne_eq, Prod.mk.injEq,
        not_and]
      exact ⟨fun hxa _ => h1 hxa.symm, fun _ hya => h2 hya.symm⟩
    rw [meetCount, List.countP_cons, hpr]
    simp only [meetCount] at ih
    simp [ih]

theorem meetCount_le_one_of_nodup (a b : Nat) :
    ∀ ps : List (Nat × Nat), (pairMembers ps).Nodup → meetCount ps a b ≤ 1
  | [], _ => by simp [meetCount]
  | (x, y) :: ps, h => by
    simp only [pairMembers, List.nodup_cons, List.mem_cons, not_or] at h
    obtain ⟨⟨hxy, hxm⟩, hym, hnd⟩ := h
    have ih := meetCount_le_one_of_nodup a b ps hnd
    by_cases hpr : ((x, y) == (a, b) || (x, y) == (b, a)) = true
    · have haz : a = x ∨ a = y := by
        rcases Bool.or_eq_true_iff.mp hpr with hx | hx
        · have h' := beq_iff_eq.mp hx
          rw [Prod.ext_iff] at h'
          exact Or.inl h'.1.symm
        · have h' := beq_iff_eq.mp hx
          rw [Prod.ext_iff] at h'
          exact Or.inr h'.2.symm
      have hz : meetCount ps a b = 0 := by
        rcases haz with rfl | rfl
        · exact meetCount_zero_of_not_mem a b ps hxm
        · exact meetCount_zero_of_not_mem a b ps hym
      rw [meetCount, List.countP_cons, hpr]
      simp only [meetCount] at hz
      simp [hz]
    · have hfr := eq_false_of_ne_true hpr
      rw [meetCount, List.countP_cons, hfr]
      simp only [meetCount] at ih
      simp [ih]

theorem pickBye_spec (byes ranked : List Nat) (b : Nat) (rest : List Nat)
    (h : pickBye byes ranked = some (b, rest)) :
    b ∉ byes ∧ b ∈ ranked ∧ rest = ranked.erase b := by
  rw [pickBye] at h
  split at h
  · exact absurd h (by simp)
  · rename_i b' hf
    simp only [Option.some.injEq, Prod.mk.injEq] at h
    obtain ⟨rfl, rfl⟩ := h
    have h1 := List.find?_some hf
    have h2 := List.mem_of_find?_eq_some hf
    refine ⟨?_, ?_, rfl⟩
    · simpa using h1
    · simpa using h2

theorem generateNextRound_spec (hist : List (Nat × Nat)) (byes ranked : List Nat)
    (ps : List (Nat × Nat)) (ob : Option Nat) (hnd : ranked.Nodup)
    (h : generateNextRound hist byes ranked = some (ps, ob)) :
    (∀ pr ∈ ps, havePlayed hist pr.1 pr.2 = false) ∧
    (pairMembers ps).Nodup ∧
    (∀ b, ob = some b → b ∉ byes) := by
  rw [generateNextRound] at h
  split at h
  · split at h
    · exact absurd h (by simp)
    · rename_i ps' hp
      simp only [Option.some.injEq, Prod.mk.injEq] at h
      obtain ⟨rfl, rfl⟩ := h
      have hs := pairAll_spec hist ranked.length ranked ps' hp
      exact ⟨hs.1, hs.2.nodup_iff.mpr hnd, fun b hb => by cases hb⟩
  · split at h
    · exact absurd h (by simp)
    · rename_i b rest hpb
      split at h
      · exact absurd h (by simp)
      · rename_i ps' hp
        simp only [Option.some.injEq, Prod.mk.injEq] at h
        obtain ⟨rfl, rfl⟩ := h
        have hb := pickBye_spec byes ranked b rest hpb
        have hs := pairAll_spec hist rest.length rest ps' hp
        have hrest : rest.Nodup := hb.2.2 ▸ hnd.erase b
        refine ⟨hs.1, hs.2.nodup_iff.mpr hrest, fun b' hb' => ?_⟩
        injection hb' with h'
        subst h'
        exact hb.1

theorem swissPhase_inv :
    ∀ (rankings : List (List Nat)) (hist : List (Nat × Nat)) (byes : List Nat)
      (hist₂ : List (Nat × Nat)) (byes₂ : List Nat),
      (∀ r ∈ rankings, r.Nodup) →
      (∀ a b : Nat, meetCount hist a b ≤ 1) → byes.Nodup →
      swissPhase rankings hist byes = some (hist₂, byes₂) →
      (∀ a b : Nat, meetCount hist₂ a b ≤ 1) ∧ byes₂.Nodup
  | [], hist, byes, hist₂, byes₂ => by
    intro _ hinv hbn h
    rw [swissPhase] at h
    simp only [Option.some.injEq, Prod.mk.injEq] at h
    obtain ⟨rfl, rfl⟩ := h
    exact ⟨hinv, hbn⟩
  | r :: rs, hist, byes, hist₂, byes₂ => by
    intro hrn hinv hbn h
    rw [swissPhase] at h
    split at h
    · exact absurd h (by simp)
    · rename_i ps ob hg
      have hspec := generateNextRound_spec hist byes r ps ob (hrn r (by simp)) hg
      refine swissPhase_inv rs (hist ++ ps) (byes ++ ob.toList) hist₂ byes₂
        (fun r' hr' => hrn r' (List.mem_cons_of_mem r hr')) ?_ ?_ h
      · intro a b
        rw [meetCount_append]
        by_cases hz : meetCount ps a b = 0
        · rw [hz]
          simpa using hinv a b
        · have hpos : 0 < List.countP (fun pr => pr == (a, b) || pr == (b, a)) ps := by
            have := Nat.pos_of_ne_zero hz
            rwa [meetCount] at this
          obtain ⟨pr, hmem, hpr⟩ := List.countP_pos.mp hpos
          have hfresh := hspec.1 pr hmem
          have hh : meetCount hist a b = 0 := by
            rcases Bool.or_eq_true_iff.mp hpr with hx | hx
            · have h' := beq_iff_eq.mp hx
              subst h'
              exact meetCount_of_not_played hist a b hfresh
            · have h' := beq_iff_eq.mp hx
              subst h'
              rw [havePlayed_comm] at hfresh
              exact meetCount_of_not_played hist a b hfresh
          rw [hh]
          have := meetCount_le_one_of_nodup a b ps hspec.2.1
          simp only [meetCount] at this ⊢
          omega
      · cases ob with
        | none => simpa using hbn
        | some b =>
          have hbnotin := hspec.2.2 b rfl
          rw [List.nodup_append]
          refine ⟨hbn, by simp, ?_⟩
          intro x hx hxb
          simp only [Option.toList_some, List.mem_singleton] at hxb
          subst hxb
          exact hbnotin hx

/-- C3: in every Swiss round generated against a pairing history, no produced
pairing repeats a pair from the history; and across a whole Swiss phase run
from an empty history, every unordered pair of participants is paired at most
once, with byes single-use (no participant receives two byes). -/
theorem C3_no_rematch :
    (∀ (hist : List (Nat × Nat)) (byes ranked : List Nat)
       (ps : List (Nat × Nat)) (ob : Option Nat),
      ranked.Nodup →
      generateNextRound hist byes ranked = some (ps, ob) →
      (∀ pr ∈ ps, havePlayed hist pr.1 pr.2 = false) ∧
      (∀ a b : Nat, meetCount ps a b ≤ 1) ∧
      (∀ b, ob = some b → b ∉ byes)) ∧
    (∀ (rankings : List (List Nat)) (hist₂ : List (Nat × Nat)) (byes₂ : List Nat),
      (∀ r ∈ rankings, r.Nodup) →
      swissPhase rankings [] [] = some (hist₂, byes₂) →
      (∀ a b : Nat, meetCount hist₂ a b ≤ 1) ∧ byes₂.Nodup) := by
  constructor
  · intro hist byes ranked ps ob hnd h
    have hs := generateNextRound_spec hist byes ranked ps ob hnd h
    exact ⟨hs.1, fun a b => meetCount_le_one_of_nodup a b ps hs.2.1, hs.2.2⟩
  · intro rankings hist₂ byes₂ hrn h
    exact swissPhase_inv rankings [] [] hist₂ byes₂ hrn
      (fun a b => by simp [meetCount]) List.nodup_nil h

/-- Witness for C3 on a concrete two-round, four-player Swiss phase. -/
theorem C3_no_rematch_witness :
    (∀ r ∈ [[1, 2, 3, 4], [1, 3, 2, 4]], List.Nodup r) ∧
    swissPhase [[1, 2, 3, 4], [1, 3, 2, 4]] [] [] =
      some ([(1, 2), (3, 4), (1, 3), (2, 4)], []) ∧
    (∀ a b : Nat, meetCount [(1, 2), (3, 4), (1, 3), (2, 4)] a b ≤ 1) :=
  ⟨by decide, by decide,
   (C3_no_rematch.2 [[1, 2, 3, 4], [1, 3, 2, 4]]
     [(1, 2), (3, 4), (1, 3), (2, 4)] [] (by decide) (by decide)).1⟩

theorem adjacentPairs_interleave :
    ∀ xs ys : List Nat, xs.length = ys.length →
      adjacentPairs (interleave xs ys) = xs.zip ys
  | [], [] => fun _ => rfl
  | [], y :: ys => by intro h; simp at h
  | x :: xs, [] => by intro h; simp at h
  | x :: xs, y :: ys => by
    intro h
    simp only [List.length_cons] at h
    show adjacentPairs (x :: y :: interleave xs ys) = (x, y) :: xs.zip ys
    rw [adjacentPairs, adjacentPairs_interleave xs ys (by omega)]

/-- C4 counterexample: the roadmap's first-round pairing is `Random pairing`
(`script_2.py`); embedding it as adjacent pairing of an arbitrary shuffle, an
admissible run (the identity shuffle of the ranked field 1..4) produces
(1,2),(3,4), which is not the seeded top-half/bottom-half pairing
(1,3),(2,4) the claim asserts always occurs. -/
theorem C4_counterexample_random_first_round :
    generateFirstRound [1, 2, 3, 4] = [(1, 2), (3, 4)] ∧
    seededFirstRound [1, 2, 3, 4] = [(1, 3), (2, 4)] ∧
    generateFirstRound [1, 2, 3, 4] ≠ seededFirstRound [1, 2, 3, 4] := by
  refine ⟨rfl, rfl, ?_⟩
  decide

/-- C4 (amended): the roadmap's first Swiss round is uniform random pairing —
adjacent pairing of a shuffled field — not the seeded split; it coincides
with the spec's seeded 1-vs-(n/2+1) pairing exactly for the particular
shuffle interleaving the top and bottom halves of the ranked field. -/
theorem C4_first_round_random (ranked : List Nat) (k : Nat)
    (h : ranked.length = 2 * k) :
    generateFirstRound (interleave (ranked.take k) (ranked.drop k)) =
      seededFirstRound ranked := by
  have hlen : (ranked.take k).length = (ranked.drop k).length := by
    rw [List.length_take, List.length_drop, h, Nat.min_def]
    split <;> omega
  rw [generateFirstRound, adjacentPairs_interleave _ _ hlen, seededFirstRound,
    h, Nat.mul_div_cancel_left k (by norm_num : (0:Nat) < 2)]

/-- Witness for C4's amended theorem on the ranked field 1..4. -/
theorem C4_first_round_random_witness :
    ([1, 2, 3, 4] : List Nat).length = 2 * 2 ∧
    generateFirstRound
        (interleave (([1, 2, 3, 4] : List Nat).take 2)
          (([1, 2, 3, 4] : List Nat).drop 2)) =
      seededFirstRound [1, 2, 3, 4] :=
  ⟨rfl, C4_first_round_random [1, 2, 3, 4] 2 rfl⟩

theorem expandSlots_append (n : Nat) :
    ∀ u v : List Nat, expandSlots n (u ++ v) = expandSlots n u ++ expandSlots n v
  | [], v => rfl
  | s :: u, v => by
    simp only [List.cons_append, expandSlots]
    exact congrArg (fun t => s :: (n + 1 - s) :: t) (expandSlots_append n u v)

theorem expandSlots_length (n : Nat) :
    ∀ l : List Nat, (expandSlots n l).length = 2 * l.length
  | [] => rfl
  | s :: l => by
    simp only [expandSlots, List.length_cons, expandSlots_length n l]
    omega

theorem mem_expandSlots (n x : Nat) :
    ∀ l : List Nat, x ∈ expandSlots n l → ∃ s ∈ l, x = s ∨ x = n + 1 - s
  | [], h => by simp [expandSlots] at h
  | s :: l, h => by
    simp only [expandSlots, List.mem_cons] at h
    rcases h with rfl | rfl | h
    · exact ⟨x, by simp, Or.inl rfl⟩
    · exact ⟨s, by simp, Or.inr rfl⟩
    · obtain ⟨s', hs', hx⟩ := mem_expandSlots n x l h
      exact ⟨s', List.mem_cons_of_mem s hs', hx⟩

theorem bracketSlots_range :
    ∀ k : Nat, ∀ x ∈ bracketSlots k, 1 ≤ x ∧ x ≤ 2 ^ k
  | 0, x, h => by simp [bracketSlots] at h; omega
  | k + 1, x, h => by
    rw [bracketSlots] at h
    obtain ⟨s, hs, hx⟩ := mem_expandSlots _ x _ h
    have hr := bracketSlots_range k s hs
    have hpow : 2 ^ k ≤ 2 ^ (k + 1) := Nat.pow_le_pow_right (by norm_num) (by omega)
    rcases hx with rfl | rfl <;> omega

theorem adjacentPairs_expandSlots (n : Nat) :
    ∀ l : List Nat, adjacentPairs (expandSlots n l) = l.map fun s => (s, n + 1 - s)
  | [] => rfl
  | s :: l => by
    simp only [expandSlots, adjacentPairs, List.map_cons,
      adjacentPairs_expandSlots n l]

theorem bracketSlots_pair_sum :
    ∀ (k : Nat), ∀ pr ∈ adjacentPairs (bracketSlots k), pr.1 + pr.2 = 2 ^ k + 1
  | 0, pr, h => by simp [bracketSlots, adjacentPairs] at h
  | k + 1, pr, h => by
    rw [bracketSlots, adjacentPairs_expandSlots] at h
    obtain ⟨s, hs, rfl⟩ := List.mem_map.mp h
    have hr := bracketSlots_range k s hs
    have hpow : 2 ^ k ≤ 2 ^ (k + 1) := Nat.pow_le_pow_right (by norm_num) (by omega)
    simp only
    omega

theorem bracketSlots_halves : ∀ k : Nat, halfSplit k (bracketSlots (k + 1))
  | 0 => ⟨[1], [2], rfl, rfl, rfl, by simp, by simp⟩
  | k + 1 => by
    obtain ⟨u, v, hl, hu, hv, h2, h1⟩ := bracketSlots_halves k
    refine ⟨expandSlots (2 ^ (k + 2)) u, expandSlots (2 ^ (k + 2)) v, ?_, ?_, ?_, ?_, ?_⟩
    · rw [show bracketSlots (k + 2) = expandSlots (2 ^ (k + 2)) (bracketSlots (k + 1)) from rfl,
        hl, expandSlots_append]
    · rw [expandSlots_length, hu]; ring
    · rw [expandSlots_length, hv]; ring
    · intro hmem
      obtain ⟨s, hs, hx⟩ := mem_expandSlots _ 2 u hmem
      have hsr : 1 ≤ s ∧ s ≤ 2 ^ (k + 1) :=
        bracketSlots_range (k + 1) s (hl ▸ List.mem_append_left v hs)
      have hpow : 2 * 2 ^ (k + 1) = 2 ^ (k + 2) := by ring
      have h2le : 2 ≤ 2 ^ (k + 1) := by
        calc 2 = 2 ^ 1 := rfl
        _ ≤ 2 ^ (k + 1) := Nat.pow_le_pow_right (by norm_num) (by omega)
      rcases hx with rfl | h2eq
      · exact h2 hs
      · omega
    · intro hmem
      obtain ⟨s, hs, hx⟩ := mem_expandSlots _ 1 v hmem
      have hsr : 1 ≤ s ∧ s ≤ 2 ^ (k + 1) :=
        bracketSlots_range (k + 1) s (hl ▸ List.mem_append_right u hs)
      have hpow : 2 * 2 ^ (k + 1) = 2 ^ (k + 2) := by ring
      rcases hx with rfl | h1eq
      · exact h1 hs
      · omega

theorem mem_adjacentPairs :
    ∀ (l : List Nat) (pr : Nat × Nat), pr ∈ adjacentPairs l → pr.1 ∈ l ∧ pr.2 ∈ l
  | [], pr, h => by simp [adjacentPairs] at h
  | [a], pr, h => by simp [adjacentPairs] at h
  | a :: b :: rest, pr, h => by
    rw [adjacentPairs] at h
    rcases List.mem_cons.mp h with rfl | h
    · simp
    · have ih := mem_adjacentPairs rest pr h
      exact ⟨List.mem_cons_of_mem a (List.mem_cons_of_mem b ih.1),
        List.mem_cons_of_mem a (List.mem_cons_of_mem b ih.2)⟩

theorem adjacentPairs_append :
    ∀ (u : List Nat), u.length % 2 = 0 →
      ∀ v, adjacentPairs (u ++ v) = adjacentPairs u ++ adjacentPairs v
  | [], _, v => rfl
  | [a], h, v => by simp at h
  | a :: b :: u, h, v => by
    have h' : u.length % 2 = 0 := by simp [List.length_cons] at h; omega
    show (a, b) :: adjacentPairs (u ++ v) = ((a, b) :: adjacentPairs u) ++ adjacentPairs v
    rw [adjacentPairs_append u h' v, List.cons_append]

theorem adjacentPairs_length :
    ∀ l : List Nat, (adjacentPairs l).length = l.length / 2
  | [] => rfl
  | [a] => by
    show ([] : List (Nat × Nat)).length = [a].length / 2
    simp
  | a :: b :: rest => by
    simp only [adjacentPairs, List.length_cons, adjacentPairs_length rest]
    omega

theorem advanceWinner_mem (w : Nat × Nat → Nat)
    (hw : ∀ pr : Nat × Nat, w pr = pr.1 ∨ w pr = pr.2) (l : List Nat) (x : Nat)
    (h : x ∈ advanceWinner w l) : x ∈ l := by
  obtain ⟨pr, hpr, rfl⟩ := List.mem_map.mp h
  have hm := mem_adjacentPairs l pr hpr
  rcases hw pr with he | he <;> rw [he]
  · exact hm.1
  · exact hm.2

theorem halfSplit_step (w : Nat × Nat → Nat)
    (hw : ∀ pr : Nat × Nat, w pr = pr.1 ∨ w pr = pr.2) (j : Nat) (l : List Nat)
    (h : halfSplit (j + 1) l) : halfSplit j (advanceWinner w l) := by
  obtain ⟨u, v, rfl, hu, hv, h2, h1⟩ := h
  have hue : u.length % 2 = 0 := by rw [hu]; simp [Nat.pow_succ]
  refine ⟨advanceWinner w u, advanceWinner w v, ?_, ?_, ?_, ?_, ?_⟩
  · rw [advanceWinner, adjacentPairs_append u hue v, List.map_append]; rfl
  · rw [advanceWinner, List.length_map, adjacentPairs_length, hu,
      Nat.pow_succ]; omega
  · rw [advanceWinner, List.length_map, adjacentPairs_length, hv,
      Nat.pow_succ]; omega
  · intro hmem; exact h2 (advanceWinner_mem w hw u 2 hmem)
  · intro hmem; exact h1 (advanceWinner_mem w hw v 1 hmem)

theorem halfSplit_playRounds (w : Nat × Nat → Nat)
    (hw : ∀ pr : Nat × Nat, w pr = pr.1 ∨ w pr = pr.2) :
    ∀ (t j : Nat) (l : List Nat),
      halfSplit (j + t) l → halfSplit j (playRounds w t l)
  | 0, j, l, h => h
  | t + 1, j, l, h => by
    rw [playRounds]
    exact halfSplit_playRounds w hw t j (advanceWinner w l)
      (halfSplit_step w hw (j + t) l (by rwa [show j + (t + 1) = j + t + 1 from rfl] at h))

theorem no_meet_of_halfSplit (j : Nat) (l : List Nat) (h : halfSplit (j + 1) l) :
    ∀ pr ∈ adjacentPairs l, ¬(pr = (1, 2) ∨ pr = (2, 1)) := by
  obtain ⟨u, v, rfl, hu, hv, h2, h1⟩ := h
  have hue : u.length % 2 = 0 := by rw [hu]; simp [Nat.pow_succ]
  intro pr hpr hmeet
  rw [adjacentPairs_append u hue v] at hpr
  rcases List.mem_append.mp hpr with hm | hm
  · have := mem_adjacentPairs u pr hm
    rcases hmeet with rfl | rfl
    · exact h2 this.2
    · exact h2 this.1
  · have := mem_adjacentPairs v pr hm
    rcases hmeet with rfl | rfl
    · exact h1 this.1
    · exact h1 this.2

theorem bracketSize_spec (q : Nat) (hq : 2 ≤ q) :
    (∃ j, bracketSize q = 2 ^ j) ∧ q ≤ bracketSize q ∧
      ∀ m : Nat, q ≤ 2 ^ m → bracketSize q ≤ 2 ^ m := by
  refine ⟨⟨Nat.clog 2 q, rfl⟩, Nat.le_pow_clog (by norm_num) q, ?_⟩
  intro m hm
  exact Nat.pow_le_pow_right (by norm_num)
    ((Nat.le_pow_iff_clog_le (by norm_num)).mp hm)

theorem top_seeds_meet_only_final (w : Nat × Nat → Nat)
    (hw : ∀ pr : Nat × Nat, w pr = pr.1 ∨ w pr = pr.2) (k t : Nat)
    (ht : t + 1 < k) :
    ∀ pr ∈ adjacentPairs (playRounds w t (bracketSlots k)),
      ¬(pr = (1, 2) ∨ pr = (2, 1)) := by
  obtain ⟨k', rfl⟩ : ∃ k', k = k' + 1 := ⟨k - 1, by omega⟩
  have hsplit : halfSplit k' (bracketSlots (k' + 1)) := bracketSlots_halves k'
  have hjt : k' - t + t = k' := by omega
  have h2 : halfSplit (k' - t) (playRounds w t (bracketSlots (k' + 1))) :=
    halfSplit_playRounds w hw t (k' - t) _ (by rwa [hjt])
  obtain ⟨j, hj⟩ : ∃ j, k' - t = j + 1 := ⟨k' - t - 1, by omega⟩
  exact no_meet_of_halfSplit j _ (hj ▸ h2)

/-- C5: for every qualifier count Q >= 2 the bracket size is the smallest
power of two that is at least Q; the first-round matches of a size-2^k
bracket pair seed i against seed B+1-i (for an 8-bracket: exactly the matches
1v8, 4v5, 2v7, 3v6); and, advancing winners of adjacent bracket slots without
re-seeding under any winner function, seeds 1 and 2 are never paired in any
round before the final. -/
theorem C5_elimination_bracket :
    (∀ q : Nat, 2 ≤ q →
      (∃ j, bracketSize q = 2 ^ j) ∧ q ≤ bracketSize q ∧
        ∀ m : Nat, q ≤ 2 ^ m → bracketSize q ≤ 2 ^ m) ∧
    (∀ k : Nat, ∀ pr ∈ adjacentPairs (bracketSlots k), pr.1 + pr.2 = 2 ^ k + 1) ∧
    adjacentPairs (bracketSlots 3) = [(1, 8), (4, 5), (2, 7), (3, 6)] ∧
    (∀ w : Nat × Nat → Nat, (∀ pr : Nat × Nat, w pr = pr.1 ∨ w pr = pr.2) →
      ∀ k t : Nat, t + 1 < k →
        ∀ pr ∈ adjacentPairs (playRounds w t (bracketSlots k)),
          ¬(pr = (1, 2) ∨ pr = (2, 1))) :=
  ⟨bracketSize_spec, bracketSlots_pair_sum, by decide, top_seeds_meet_only_final⟩

/-- Witness for C5: qualifier count 5 (bracket size 8), and the 8-bracket
with first-listed winners advancing: the opening match 1v8 is not a meeting
of seeds 1 and 2. -/
theorem C5_elimination_bracket_witness :
    (2 ≤ 5 ∧ 5 ≤ bracketSize 5 ∧ bracketSize 5 ≤ 2 ^ 3) ∧
    ((1, 8) ∈ adjacentPairs (playRounds Prod.fst 0 (bracketSlots 3)) ∧
      ¬((1, 8) = ((1, 2) : Nat × Nat) ∨ (1, 8) = ((2, 1) : Nat × Nat))) :=
  ⟨⟨by decide, (C5_elimination_bracket.1 5 (by decide)).2.1,
    (C5_elimination_bracket.1 5 (by decide)).2.2 3 (by decide)⟩,
   ⟨by decide,
    C5_elimination_bracket.2.2.2 Prod.fst (fun pr => Or.inl rfl) 3 0 (by decide)
      (1, 8) (by decide)⟩⟩

theorem sweep_early (m : LMatch) (t : Nat) (hterm : isTerminal m.state = false)
    (ht : t < m.deadline) : step m (.deadlineSweep t) = (m, none) := by
  simp [step, isExternal, hterm, Nat.not_le.mpr ht]

/-- C6: upon deadline expiry while the match is not terminal: with exactly
one participant seen before expiry the match becomes `forfeited` with that
participant as winner; with both absent the whole window it becomes
`doubleForfeited` with no winner, counting as a loss for both participants
in the standings accounting; a sweep before the deadline changes nothing. -/
theorem C6_deadline_forfeiture :
    ∀ (m : LMatch) (now : Nat), isTerminal m.state = false → m.deadline ≤ now →
      ((m.p1Seen = true → m.p2Seen = false →
        (step m (.deadlineSweep now)).1.state = .forfeited ∧
        (step m (.deadlineSweep now)).1.winner = some m.p1) ∧
       (m.p1Seen = false → m.p2Seen = true →
        (step m (.deadlineSweep now)).1.state = .forfeited ∧
        (step m (.deadlineSweep now)).1.winner = some m.p2) ∧
       (m.p1Seen = false → m.p2Seen = false →
        (step m (.deadlineSweep now)).1.state = .doubleForfeited ∧
        (step m (.deadlineSweep now)).1.winner = none ∧
        lossFor m.p1 (toTMatch (step m (.deadlineSweep now)).1) = true ∧
        lossFor m.p2 (toTMatch (step m (.deadlineSweep now)).1) = true) ∧
       (∀ t : Nat, t < m.deadline → step m (.deadlineSweep t) = (m, none))) := by
  intro m now hterm hd
  refine ⟨?_, ?_, ?_, fun t ht => sweep_early m t hterm ht⟩
  · intro h1 h2
    simp [step, isExternal, hterm, hd, h1, h2]
  · intro h1 h2
    simp [step, isExternal, hterm, hd, h1, h2]
  · intro h1 h2
    simp [step, isExternal, hterm, hd, h1, h2, toTMatch, lossFor]

/-- Witness for C6: a 24-hour match in `awaitingBothOnline` with only the
first participant ever seen, swept at the deadline. -/
theorem C6_deadline_forfeiture_witness :
    isTerminal (MatchState.awaitingBothOnline) = false ∧
    ((⟨1, 2, 24, .awaitingBothOnline, true, false, none, none⟩ : LMatch).p1Seen = true →
      (⟨1, 2, 24, .awaitingBothOnline, true, false, none, none⟩ : LMatch).p2Seen = false →
      (step ⟨1, 2, 24, .awaitingBothOnline, true, false, none, none⟩
        (.deadlineSweep 24)).1.state = .forfeited ∧
      (step ⟨1, 2, 24, .awaitingBothOnline, true, false, none, none⟩
        (.deadlineSweep 24)).1.winner = some 1) :=
  ⟨by decide,
   (C6_deadline_forfeiture ⟨1, 2, 24, .awaitingBothOnline, true, false, none, none⟩
     24 (by decide) (by decide)).1⟩

/-- C7: a terminal match is immutable under external events: the event is
dropped, the state is unchanged, and a stale-event warning (not a failure)
is emitted; any event that mutates a terminal match is the administrative
override, and even it never changes the state. -/
theorem C7_terminal_immutable :
    ∀ (m : LMatch) (e : MEvent), isTerminal m.state = true →
      (isExternal e = true → step m e = (m, some .staleEventIgnored)) ∧
      (step m e).1.state = m.state ∧
      ((step m e).1 ≠ m → isExternal e = false) := by
  intro m e hterm
  cases e with
  | presence p =>
    refine ⟨fun _ => by simp [step, isExternal, hterm], ?_, ?_⟩
    · simp [step, isExternal, hterm]
    · intro hne
      exact absurd (by simp [step, isExternal, hterm]) hne
  | gameResult w =>
    refine ⟨fun _ => by simp [step, isExternal, hterm], ?_, ?_⟩
    · simp [step, isExternal, hterm]
    · intro hne
      exact absurd (by simp [step, isExternal, hterm]) hne
  | deadlineSweep t =>
    refine ⟨fun _ => by simp [step, isExternal, hterm], ?_, ?_⟩
    · simp [step, isExternal, hterm]
    · intro hne
      exact absurd (by simp [step, isExternal, hterm]) hne
  | adminOverride w k =>
    refine ⟨fun hext => by simp [isExternal] at hext, ?_, fun _ => rfl⟩
    simp [step, isExternal, hterm]

/-- Witness for C7: a completed match receiving a late game result. -/
theorem C7_terminal_immutable_witness :
    isTerminal (MatchState.completed) = true ∧
    isExternal (MEvent.gameResult (some 2)) = true ∧
    step (⟨1, 2, 24, .completed, true, true, some 1, some .decisive⟩ : LMatch)
      (.gameResult (some 2)) =
      (⟨1, 2, 24, .completed, true, true, some 1, some .decisive⟩,
        some .staleEventIgnored) :=
  ⟨by decide, by decide,
   (C7_terminal_immutable ⟨1, 2, 24, .completed, true, true, some 1, some .decisive⟩
     (.gameResult (some 2)) (by decide)).1 (by decide)⟩

theorem step_preserves_terminal (m : LMatch) (e : MEvent)
    (h : isTerminal m.state = true) : isTerminal (step m e).1.state = true := by
  cases e with
  | presence p => simp [step, isExternal, h]
  | gameResult w => simp [step, isExternal, h]
  | deadlineSweep t => simp [step, isExternal, h]
  | adminOverride w k => simp [step, isExternal, h]

theorem updateRound_complete (j : Nat) (e : MEvent) (rnd : List LMatch)
    (h : roundComplete rnd) : roundComplete (updateRound j e rnd) := by
  rw [updateRound]
  split
  · exact h
  · rename_i m hg
    intro mm hmm
    rcases List.mem_or_eq_of_mem_set hmm with hmem | rfl
    · exact h mm hmem
    · exact step_preserves_terminal m e (h m (List.get?_mem hg))

theorem applyEvent_complete_all (j : Nat) (e : MEvent) :
    ∀ (r : Nat) (rounds : List (List LMatch)),
      (∀ rd ∈ rounds, roundComplete rd) →
      ∀ rd ∈ applyEvent r j e rounds, roundComplete rd
  | r, [], h => by simp [applyEvent]
  | 0, rnd :: rest, h => by
    intro rd hrd
    rcases List.mem_cons.mp hrd with rfl | hrd
    · exact updateRound_complete j e rnd (h rnd (by simp))
    · exact h rd (List.mem_cons_of_mem rnd hrd)
  | r' + 1, rnd :: rest, h => by
    intro rd hrd
    rcases List.mem_cons.mp hrd with rfl | hrd
    · exact h rd (by simp)
    · exact applyEvent_complete_all j e r' rest
        (fun rd' hrd' => h rd' (List.mem_cons_of_mem rnd hrd')) rd hrd

theorem applyEvent_inv (r j : Nat) (e : MEvent) (rounds : List (List LMatch))
    (h : ∀ rd ∈ rounds.tail, roundComplete rd) :
    ∀ rd ∈ (applyEvent r j e rounds).tail, roundComplete rd := by
  cases rounds with
  | nil => simp [applyEvent]
  | cons rnd rest =>
    cases r with
    | zero =>
      intro rd hrd
      exact h rd (by simpa using hrd)
    | succ r' =>
      intro rd hrd
      simp only [applyEvent, List.tail_cons] at hrd
      exact applyEvent_complete_all j e r' rest (fun rd' hrd' => h rd' (by simpa using hrd')) rd hrd

theorem inv_extend (rounds : List (List LMatch))
    (hcomp : roundComplete (rounds.headD []))
    (ih : ∀ rd ∈ rounds.tail, roundComplete rd) :
    ∀ rd ∈ rounds, roundComplete rd := by
  cases rounds with
  | nil => simp
  | cons r0 rest =>
    intro rd hrd
    rcases List.mem_cons.mp hrd with rfl | hrd2
    · simpa using hcomp
    · exact ih rd (by simpa using hrd2)

/-- C8: in every reachable tournament state, a round that has a successor
round is complete: the controller pairs a new round only after every match
of the newest existing round is terminal, so all rounds other than the
newest consist of terminal matches only. -/
theorem C8_round_pairing_barrier :
    ∀ s : TState, Relation.ReflTransGen CStep ⟨[]⟩ s →
      ∀ rd ∈ s.rounds.tail, roundComplete rd := by
  intro s h
  induction h with
  | refl => simp
  | tail h1 hstep ih =>
    cases hstep with
    | matchEvent r j e => exact applyEvent_inv r j e _ ih
    | pairRound newR hcomp =>
      intro rd hrd
      simp only [List.tail_cons] at hrd
      exact inv_extend _ hcomp ih rd hrd

/-- Witness for C8: pair a single already-terminal round, then pair a second
round; in the reached state the non-newest round is complete. -/
theorem C8_round_pairing_barrier_witness :
    Relation.ReflTransGen CStep (⟨[]⟩ : TState)
      ⟨[[⟨1, 3, 48, .created, false, false, none, none⟩],
        [⟨1, 2, 24, .completed, true, true, some 1, some .decisive⟩]]⟩ ∧
    roundComplete [(⟨1, 2, 24, .completed, true, true, some 1, some .decisive⟩ : LMatch)] :=
  have h1 : CStep (⟨[]⟩ : TState)
      ⟨[[⟨1, 2, 24, .completed, true, true, some 1, some .decisive⟩]]⟩ :=
    CStep.pairRound ⟨[]⟩ [⟨1, 2, 24, .completed, true, true, some 1, some .decisive⟩]
      (by intro mm hmm; simp at hmm)
  have h2 : CStep ⟨[[⟨1, 2, 24, .completed, true, true, some 1, some .decisive⟩]]⟩
      ⟨[[⟨1, 3, 48, .created, false, false, none, none⟩],
        [⟨1, 2, 24, .completed, true, true, some 1, some .decisive⟩]]⟩ :=
    CStep.pairRound _ [⟨1, 3, 48, .created, false, false, none, none⟩]
      (by
        intro mm hmm
        rw [List.headD_cons, List.mem_singleton] at hmm
        subst hmm
        decide)
  have hr := (Relation.ReflTransGen.refl.tail h1).tail h2
  ⟨hr,
   C8_round_pairing_barrier _ hr
     [⟨1, 2, 24, .completed, true, true, some 1, some .decisive⟩] (by simp)⟩

/-- Witness for C9 on a concrete two-participant tournament with no matches
yet. -/
theorem C9_standings_deterministic_witness :
    List.Sorted standingLE (baseEntries [5, 7] []) ∧
    baseEntries [5, 7] [] = recalculateStandings [5, 7] [] :=
  ⟨by simp [baseEntries, baseEntriesFrom, List.sorted_cons, standingLE_iff,
      points, calculateBuchholz],
   (C9_standings_deterministic [5, 7] []).2.2.2.1
     (baseEntries [5, 7] []) (List.Perm.refl _)
     (by simp [baseEntries, baseEntriesFrom, List.sorted_cons, standingLE_iff,
        points, calculateBuchholz])⟩


/-- C10: the schema-generation script is a constant function: every run
produces the same output — a dataframe of exactly 46 field rows whose Table
column consists, in appended order, of 12 `championships`, 9
`championship_participants`, 12 `championship_matches` and 13
`championship_standings` rows — written to
`championship_database_schema.csv` without an index column. -/
theorem C10_schema_script_constant :
    (∀ u v : Unit, runScript u = runScript v) ∧
    (runScript ()).path = "championship_database_schema.csv" ∧
    (runScript ()).index = false ∧
    (runScript ()).rows = tables_data ∧
    tables_data.length = 46 ∧
    tables_data.map (fun r => r.table) =
      List.replicate 12 "championships" ++
      List.replicate 9 "championship_participants" ++
      List.replicate 12 "championship_matches" ++
      List.replicate 13 "championship_standings" ∧
    (tables_data.filter (fun r => r.table == "championships")).length = 12 ∧
    (tables_data.filter (fun r => r.table == "championship_participants")).length = 9 ∧
    (tables_data.filter (fun r => r.table == "championship_matches")).length = 12 ∧
    (tables_data.filter (fun r => r.table == "championship_standings")).length = 13 :=
  ⟨fun _ _ => rfl, rfl, rfl, rfl, rfl, by decide, by decide, by decide, by decide, by decide⟩

end Championship
